import Mathlib

/-!
Mineserver chat subsystem (`src/chat.cpp`).

A shallow embedding of `Chat::registerCommand`, `Chat::parseCmd`,
`Chat::handleMsg`, `Chat::sendMsg`, `Chat::sendHelp`, `Chat::loadRoles`,
`Chat::loadBanned` and `Chat::loadWhitelist`, followed by the properties of the
command registry, the tokenizer, the message classifier, the wire frame, the
help formatter and the role, ban and whitelist files.

Conventions of the embedding:

* a `std::string` is a `List Char`, one list element per C++ `char`;
* `s[0]` on a `std::string` is `at0 s`: the first element, and the terminating
  `'\0'` when the string is empty (`operator[]` at `pos == size()`);
* `std::string::substr(pos)` throws `std::out_of_range` when `pos > size()`;
* a `std::map<std::string, Command*>` is a list of (key, value) pairs kept in
  key order, `m[k] = v` being `CommandList.assign` and `m.find(k)` being
  `CommandList.find`;
* calls that leave the file (a command callback, the transport methods of
  `User`, `LOG`) are recorded, in program order, as a list of `Effect`s;
* a file on disk is an `Option Str`: `none` when opening it fails, otherwise
  its text, which `getline` cuts at newlines.
-/

namespace Mineserver

/-! ## Data model -/

/-- A `std::string`. -/
abbrev Str := List Char

/-- Ways a run of the C++ code can fail to return normally. -/
inductive Fault where
  | out_of_range
  | empty_deque
  | no_fuel
deriving DecidableEq, Repr

/-- Modelled from the spec: the permission value carried by a `User` and by a
`Command` (the header that declares it is not part of the sources). The spec's
PermissionTier is the ordered enumeration GUEST < MEMBER < OP < ADMIN. -/
inductive Tier where
  | GUEST
  | MEMBER
  | OP
  | ADMIN
deriving DecidableEq, Repr

/-- Position of a tier in the order GUEST < MEMBER < OP < ADMIN. -/
def Tier.rank : Tier → Nat
  | .GUEST => 0
  | .MEMBER => 1
  | .OP => 2
  | .ADMIN => 3

instance : LE Tier := ⟨fun a b => a.rank ≤ b.rank⟩

instance : LT Tier := ⟨fun a b => a.rank < b.rank⟩

instance (a b : Tier) : Decidable (a ≤ b) := Nat.decLe a.rank b.rank

instance (a b : Tier) : Decidable (a < b) := Nat.decLt a.rank b.rank

/-- Modelled from the spec: the macro `IS_ADMIN` (its header is not part of the
sources). Tiers are cumulative: a permission value passes the test of its own
tier and of every tier below it. -/
def IS_ADMIN (permissions : Tier) : Bool := decide (Tier.ADMIN ≤ permissions)

/-- Modelled from the spec: the macro `IS_OP`, cumulative like `IS_ADMIN`. -/
def IS_OP (permissions : Tier) : Bool := decide (Tier.OP ≤ permissions)

/-- Modelled from the spec: the macro `IS_MEMBER`, cumulative like `IS_ADMIN`. -/
def IS_MEMBER (permissions : Tier) : Bool := decide (Tier.MEMBER ≤ permissions)

/-- Modelled from the spec: the macro `IS_GUEST`, cumulative like `IS_ADMIN`. -/
def IS_GUEST (permissions : Tier) : Bool := decide (Tier.GUEST ≤ permissions)

/-- The constants of `constants.h` the file refers to; their values are not part
of the sources, so they are parameters of the embedding. -/
structure Constants where
  SERVERMSGPREFIX : Char
  ADMINCHATPREFIX : Char
  CHATCMDPREFIX : Char
  COMMENTPREFIX : Char
  COLOR_RED : Str
  COLOR_GREEN : Str
  COLOR_BLUE : Str
  COLOR_YELLOW : Str
  COLOR_DARK_MAGENTA : Str
  COLOR_WHITE : Str

/-- A `Command` object. The `callback` member is code outside the file: calling
it is recorded as `Effect.callback`. -/
structure Command where
  names : List Str
  permissions : Tier
  arguments : Str
  description : Str
deriving DecidableEq, Repr

/-- The members of `User` the file reads. `isAbleToCommunicate` is the
capability check of the user object. -/
structure User where
  nick : Str
  permissions : Tier
  isAbleToCommunicate : Str → Bool

/-- The enumeration `Chat::MessageTarget`, as listed by the `switch` of
`sendMsg`. -/
inductive MessageTarget where
  | ALL
  | USER
  | ADMINS
  | OPS
  | GUESTS
  | OTHERS
deriving DecidableEq, Repr

/-- One call that leaves `chat.cpp`. `transport action frame` is the call of the
`User` method selected by `action` (`sendAll`, `buffer.addToWrite`,
`sendAdmins`, `sendOps`, `sendGuests`, `sendOthers`) on the frame. -/
inductive Effect where
  | callback (c : Command) (user : User) (command : Str) (args : List Str)
  | transport (action : MessageTarget) (frame : List Nat)
  | log (msg : Str)

/-- A `CommandList`, that is a `std::map<std::string, Command*>`. -/
abbrev CommandList := List (Str × Command)

/-- The member variables of `Chat`. -/
structure Chat where
  guestCommands : CommandList
  memberCommands : CommandList
  opCommands : CommandList
  adminCommands : CommandList
  admins : List Str
  ops : List Str
  members : List Str
  banned : List Str
  whitelist : List Str

/-- A `Chat` with empty command maps and empty lists. -/
def Chat.empty : Chat :=
  ⟨[], [], [], [], [], [], [], [], []⟩

/-! ## Strings and maps -/

/-- The order of `std::string`: lexicographic on the character values. -/
def strLess : Str → Str → Bool
  | [], [] => false
  | [], _ :: _ => true
  | _ :: _, [] => false
  | a :: as, b :: bs =>
    if a.toNat < b.toNat then true
    else if b.toNat < a.toNat then false
    else strLess as bs

/-- The map lookup `m.find(k)`: `none` stands for `m.end()`. -/
def CommandList.find : CommandList → Str → Option Command
  | [], _ => none
  | (k', v) :: rest, k => if k' = k then some v else CommandList.find rest k

/-- The map assignment `m[k] = v`: overwrites the entry of `k` or inserts a new
entry at its place in key order. -/
def CommandList.assign : CommandList → Str → Command → CommandList
  | [], k, v => [(k, v)]
  | (k', v') :: rest, k, v =>
    if k' = k then (k, v) :: rest
    else if strLess k k' then (k, v) :: (k', v') :: rest
    else (k', v') :: CommandList.assign rest k v

/-- The read `s[0]` of a `std::string`. -/
def at0 (s : Str) : Char :=
  match s with
  | [] => Char.ofNat 0
  | c :: _ => c

/-- The call `s.substr(pos)`. -/
def substr (s : Str) (pos : Nat) : Except Fault Str :=
  if pos ≤ s.length then .ok (s.drop pos) else .error Fault.out_of_range

/-- The call `s.find(c)` for a character: `none` stands for `npos`. -/
def find : Str → Char → Option Nat
  | [], _ => none
  | x :: xs, c => if x = c then some 0 else (find xs c).map (· + 1)

/-! ## `Chat::registerCommand` -/

/-- The body of the loop of `registerCommand` for one word. -/
def registerWord (chat : Chat) (command : Command) (currentWord : Str) : Chat :=
  if IS_ADMIN command.permissions then
    { chat with adminCommands := chat.adminCommands.assign currentWord command }
  else if IS_OP command.permissions then
    { chat with
      opCommands := chat.opCommands.assign currentWord command
      adminCommands := chat.adminCommands.assign currentWord command }
  else if IS_MEMBER command.permissions then
    { chat with
      memberCommands := chat.memberCommands.assign currentWord command
      opCommands := chat.opCommands.assign currentWord command
      adminCommands := chat.adminCommands.assign currentWord command }
  else if IS_GUEST command.permissions then
    { chat with
      guestCommands := chat.guestCommands.assign currentWord command
      memberCommands := chat.memberCommands.assign currentWord command
      opCommands := chat.opCommands.assign currentWord command
      adminCommands := chat.adminCommands.assign currentWord command }
  else chat

/-- `Chat::registerCommand`: the loop takes the words of `command->names` from
the front, one per iteration. -/
def registerCommand (chat : Chat) (command : Command) : Chat :=
  command.names.foldl (fun acc currentWord => registerWord acc command currentWord) chat

/-- The command map named after a tier (`guestCommands`, `memberCommands`,
`opCommands`, `adminCommands`). -/
def Chat.mappingFor (chat : Chat) : Tier → CommandList
  | .GUEST => chat.guestCommands
  | .MEMBER => chat.memberCommands
  | .OP => chat.opCommands
  | .ADMIN => chat.adminCommands

/-! ## `Chat::parseCmd` -/

/-- The inner loop `while(cmd[0] == ' ') cmd = cmd.substr(1);`. On the empty
string `cmd[0]` is `'\0'`, which ends the loop. -/
def skipSpaces : Str → Str
  | [] => []
  | c :: rest => if c = ' ' then skipSpaces rest else c :: rest

/-- The outer loop of `parseCmd`, one iteration per unit of fuel. `del` is the
result of `cmd.find(' ')`; it is below `cmd.size()`, so neither `substr` call of
the loop body can throw. (The source stores `del` in an `int`; lines are taken to
be shorter than 2^31 characters.) -/
def parseCmdLoop : Nat → Str → List Str → Except Fault (List Str)
  | 0, _, _ => .error Fault.no_fuel
  | fuel + 1, cmd, temp =>
    if cmd.length > 0 then
      let cmd1 := skipSpaces cmd
      match find cmd1 ' ' with
      | some del => parseCmdLoop fuel (cmd1.drop (del + 1)) (temp ++ [cmd1.take del])
      | none => .ok (temp ++ [cmd1])
    else .ok temp

/-- `Chat::parseCmd`. Every iteration that does not leave the loop shortens
`cmd`, so `cmd.length + 1` iterations are enough. -/
def parseCmd (cmd : Str) : Except Fault (List Str) :=
  match parseCmdLoop (cmd.length + 1) cmd [] with
  | .error e => .error e
  | .ok temp => if temp.isEmpty then .ok ["empty".toList] else .ok temp

/-! ## `Chat::sendMsg` -/

/-- The conversion of a `char` of the message to the `uint8` stored in the
frame (`tmpArray[i+3] = msg[i]`). -/
def byteOf (c : Char) : Nat := c.toNat % 256

/-- The array `tmpArray` that `sendMsg` fills: the three header bytes, then one
byte per character of `msg`. Its length is `tmpArrayLen = msg.size() + 3`. -/
def tmpArray (msg : Str) : List Nat :=
  [0x03, 0, msg.length % 256] ++ msg.map byteOf

/-- `Chat::sendMsg`: the return value and the transport call made. -/
def sendMsg (_user : User) (msg : Str) (action : MessageTarget) : Bool × List Effect :=
  (true, [Effect.transport action (tmpArray msg)])

/-! ## `Chat::handleMsg` -/

/-- The command branch of `handleMsg` after tokenizing: `cmd[0]`, `pop_front`
and the two map lookups. -/
def dispatch (chat : Chat) (user : User) (cmd : List Str) : Except Fault (List Effect) :=
  match cmd with
  | [] => .error Fault.empty_deque
  | command :: args =>
    match chat.memberCommands.find command with
    | some c => .ok [Effect.callback c user command args]
    | none =>
      if IS_ADMIN user.permissions then
        match chat.adminCommands.find command with
        | some c => .ok [Effect.callback c user command args]
        | none => .ok []
      else .ok []

/-- `Chat::handleMsg`. `clock` is the text `asctime` returns (always 24
characters and a newline), from which `substr(11, 5)` cuts the time stamp. The
result is the returned `bool` and the calls made, in order. -/
def handleMsg (k : Constants) (chat : Chat) (clock : Str) (user : User) (msg : Str) :
    Except Fault (Bool × List Effect) :=
  let timeStamp := (clock.drop 11).take 5
  if at0 msg = k.SERVERMSGPREFIX ∧ IS_ADMIN user.permissions = true then
    match substr msg 1 with
    | .error e => .error e
    | .ok rest =>
      let msg1 := k.COLOR_RED ++ "[!] ".toList ++ k.COLOR_GREEN ++ rest
      .ok (true, (sendMsg user msg1 .ALL).2)
  else if at0 msg = k.ADMINCHATPREFIX ∧ IS_ADMIN user.permissions = true then
    match substr msg 1 with
    | .error e => .error e
    | .ok rest =>
      let msg1 := timeStamp ++ " @@ <".toList ++ k.COLOR_DARK_MAGENTA ++ user.nick
        ++ k.COLOR_WHITE ++ "> ".toList ++ rest
      .ok (true, (sendMsg user msg1 .ADMINS).2)
  else if at0 msg = k.CHATCMDPREFIX then
    match substr msg 1 with
    | .error e => .error e
    | .ok rest =>
      match parseCmd rest with
      | .error e => .error e
      | .ok cmd =>
        match dispatch chat user cmd with
        | .error e => .error e
        | .ok effects => .ok (true, effects)
  else
    if user.isAbleToCommunicate "chat".toList = false then .ok (true, [])
    else
      let msg1 :=
        if IS_ADMIN user.permissions then
          timeStamp ++ " <".toList ++ k.COLOR_DARK_MAGENTA ++ user.nick ++ k.COLOR_WHITE
            ++ "> ".toList ++ msg
        else timeStamp ++ " <".toList ++ user.nick ++ "> ".toList ++ msg
      .ok (true, Effect.log msg1 :: (sendMsg user msg1 .ALL).2)

/-! ## `Chat::sendHelp` -/

/-- The choice of `commandList` at the head of `sendHelp`. -/
def helpCommandList (chat : Chat) (permissions : Tier) : CommandList :=
  if IS_ADMIN permissions then chat.adminCommands
  else if IS_OP permissions then chat.opCommands
  else if IS_MEMBER permissions then chat.memberCommands
  else chat.guestCommands

/-- The choice of `commandColor` at the head of `sendHelp`. -/
def commandColor (k : Constants) (permissions : Tier) : Str :=
  if IS_ADMIN permissions then k.COLOR_RED
  else if IS_OP permissions then k.COLOR_GREEN
  else k.COLOR_BLUE

/-- The loop of `sendHelp` over the entries of the map, from `begin()` to
`end()`: one `sendMsg` per entry. -/
def sendHelpList (k : Constants) (user : User) (color : Str) : CommandList → List Effect
  | [] => []
  | (first, second) :: rest =>
    (sendMsg user (color ++ [k.CHATCMDPREFIX] ++ first ++ " ".toList ++ second.arguments
        ++ " : ".toList ++ k.COLOR_YELLOW ++ second.description) .USER).2
      ++ sendHelpList k user color rest

/-- `Chat::sendHelp`: the calls made, in order. In the branch where `find`
succeeds, `iter->first` is the key found, which equals `args.front()`. -/
def sendHelp (k : Constants) (chat : Chat) (user : User) (args : List Str) : List Effect :=
  let commandList := helpCommandList chat user.permissions
  let color := commandColor k user.permissions
  match args with
  | [] => sendHelpList k user color commandList
  | front :: _ =>
    match commandList.find front with
    | some second =>
      (sendMsg user (color ++ [k.CHATCMDPREFIX] ++ front ++ " ".toList ++ second.arguments)
          .USER).2
        ++ (sendMsg user (k.COLOR_YELLOW ++ [k.CHATCMDPREFIX] ++ second.description) .USER).2
    | none =>
      (sendMsg user (k.COLOR_RED ++ "Unknown Command: ".toList ++ front) .USER).2

/-! ## `Chat::loadRoles`, `Chat::loadBanned`, `Chat::loadWhitelist` -/

/-- The template payloads of `constants.h` written to a file that is missing;
their values are not part of the sources, so they are parameters. -/
structure Templates where
  ROLES_CONTENT : Str
  BANNED_CONTENT : Str
  WHITELIST_CONTENT : Str

/-- The lines that the loop `while(getline(ifs, temp))` reads from what is left
of the file, `cur` being the part of the current line already read. A line ends
at a newline or at the end of the file; at the end of the file `getline` fails
when it has read no character. -/
def getlinesFrom : Str → Str → List Str
  | [], cur => if cur = [] then [] else [cur]
  | c :: rest, cur =>
    if c = Char.ofNat 10 then cur :: getlinesFrom rest [] else getlinesFrom rest (cur ++ [c])

/-- The successive values of `temp` in the loop `while(getline(ifs, temp))` over
a file of the given content. -/
def getlines (content : Str) : List Str := getlinesFrom content []

/-- The target of the pointer `role_list`. -/
inductive RoleList where
  | admins
  | ops
  | members
deriving DecidableEq, Repr

/-- The statement `role_list->push_back(temp)`. -/
def pushRole (chat : Chat) (role_list : RoleList) (temp : Str) : Chat :=
  match role_list with
  | .admins => { chat with admins := chat.admins ++ [temp] }
  | .ops => { chat with ops := chat.ops ++ [temp] }
  | .members => { chat with members := chat.members ++ [temp] }

/-- The statement `temp.erase(std::remove(temp.begin(), temp.end(), ' '),
temp.end())`. -/
def eraseSpaces (temp : Str) : Str := temp.filter (fun c => c ≠ ' ')

/-- The body of the loop of `loadRoles` for one line `temp`, on the pair of
`role_list` and the lists. -/
def loadRolesLine (k : Constants) (st : RoleList × Chat) (temp : Str) :
    Except Fault (RoleList × Chat) :=
  if at0 temp = k.COMMENTPREFIX then
    match substr temp 1 with
    | .error e => .error e
    | .ok temp1 =>
      let temp2 := eraseSpaces temp1
      let r1 := if temp2 = "admins".toList then RoleList.admins else st.1
      let r2 := if temp2 = "ops".toList then RoleList.ops else r1
      let r3 := if temp2 = "members".toList then RoleList.members else r2
      .ok (r3, st.2)
  else
    let temp2 := eraseSpaces temp
    if temp2 ≠ [] then .ok (st.1, pushRole st.2 st.1 temp2) else .ok st

/-- The loop of `loadRoles` over the lines of the file. -/
def loadRolesLoop (k : Constants) : List Str → RoleList × Chat → Except Fault (RoleList × Chat)
  | [], st => .ok st
  | temp :: rest, st =>
    match loadRolesLine k st temp with
    | .error e => .error e
    | .ok st1 => loadRolesLoop k rest st1

/-- What a load function leaves: the returned `bool`, the member variables and
the file. -/
structure Loaded where
  ret : Bool
  chat : Chat
  file : Option Str

/-- `Chat::loadRoles`. The file is `none` when opening it fails (it does not
exist); it is then created with the template and a line end. The warning
printed to `std::cout` is not recorded. -/
def loadRoles (k : Constants) (t : Templates) (chat : Chat) (file : Option Str) :
    Except Fault Loaded :=
  let chat0 := { chat with admins := [], ops := [], members := [] }
  match file with
  | none => .ok ⟨true, chat0, some (t.ROLES_CONTENT ++ [Char.ofNat 10])⟩
  | some content =>
    match loadRolesLoop k (getlines content) (RoleList.members, chat0) with
    | .error e => .error e
    | .ok st => .ok ⟨true, st.2, some content⟩

/-- The loop shared by `loadBanned` and `loadWhitelist`: the lines that do not
start with the comment character, appended in order. -/
def keepLines (k : Constants) : List Str → List Str → List Str
  | [], acc => acc
  | temp :: rest, acc =>
    if at0 temp ≠ k.COMMENTPREFIX then keepLines k rest (acc ++ [temp])
    else keepLines k rest acc

/-- `Chat::loadBanned`. -/
def loadBanned (k : Constants) (t : Templates) (chat : Chat) (file : Option Str) : Loaded :=
  let chat0 := { chat with banned := [] }
  match file with
  | none => ⟨true, chat0, some (t.BANNED_CONTENT ++ [Char.ofNat 10])⟩
  | some content =>
    ⟨true, { chat0 with banned := keepLines k (getlines content) chat0.banned }, some content⟩

/-- `Chat::loadWhitelist`. -/
def loadWhitelist (k : Constants) (t : Templates) (chat : Chat) (file : Option Str) : Loaded :=
  let chat0 := { chat with whitelist := [] }
  match file with
  | none => ⟨true, chat0, some (t.WHITELIST_CONTENT ++ [Char.ofNat 10])⟩
  | some content =>
    ⟨true, { chat0 with whitelist := keepLines k (getlines content) chat0.whitelist },
      some content⟩

/-! ## Vocabulary of the properties -/

/-- The payload of a frame: what follows the three header bytes. -/
def framePayload (frame : List Nat) : List Nat := frame.drop 3

/-- The cascade on bindings: whatever a lower tier's map binds an alias to, every
higher tier's map binds it to as well. -/
def CascadeBindings (chat : Chat) : Prop :=
  ∀ T1 T2 : Tier, T1 < T2 → ∀ (a : Str) (c : Command),
    (chat.mappingFor T1).find a = some c → (chat.mappingFor T2).find a = some c

/-- A registration that rebinds nothing seen from below: no alias of `c` is
bound, in the map of a tier below the tier of `c`, to another command. -/
def Compatible (chat : Chat) (c : Command) : Prop :=
  ∀ a ∈ c.names, ∀ T : Tier, T < c.permissions →
    (chat.mappingFor T).find a = none ∨ (chat.mappingFor T).find a = some c

/-- A sequence of registrations each of which is `Compatible` with the registry
it is applied to. -/
def Admissible : Chat → List Command → Prop
  | _, [] => True
  | chat, c :: cs => Compatible chat c ∧ Admissible (registerCommand chat c) cs

/-- Follows the words of the tokenizer claim, not the source: the runs of
non-space characters that remain of `s` once `cur`, the run being read, is put
in front. -/
def runsFrom : Str → Str → List Str
  | [], cur => if cur = [] then [] else [cur]
  | c :: rest, cur =>
    if c = ' ' then (if cur = [] then runsFrom rest [] else cur :: runsFrom rest [])
    else runsFrom rest (cur ++ [c])

/-- Follows the words of the tokenizer claim, not the source: the maximal runs
of non-space characters of the input, in order. -/
def maximalRuns (s : Str) : List Str := runsFrom s []

/-- The aliases of a command map: its keys, in the order of the map. -/
def CommandList.aliases (m : CommandList) : List Str := m.map Prod.fst

/-- The cascade on alias sets: an alias bound in the map of a tier is bound in
the map of every higher tier. -/
def CascadeAliases (chat : Chat) : Prop :=
  ∀ T1 T2 : Tier, T1 < T2 → ∀ a : Str,
    (chat.mappingFor T1).find a ≠ none → (chat.mappingFor T2).find a ≠ none

/-- The text of a file made of the given lines, each ended by a newline. -/
def fileOfLines : List Str → Str
  | [] => []
  | line :: rest => line ++ (Char.ofNat 10 :: fileOfLines rest)

/-- Follows the words of the role-file claim, not the source: the list named by
a header line, that is a line that starts with the comment character and whose
text, once that character and all spaces are removed, is exactly `admins`, `ops`
or `members`; `none` for every other line. -/
def headerRole (k : Constants) (line : Str) : Option RoleList :=
  if at0 line = k.COMMENTPREFIX then
    if (line.drop 1).filter (fun c => c ≠ ' ') = "admins".toList then some RoleList.admins
    else if (line.drop 1).filter (fun c => c ≠ ' ') = "ops".toList then some RoleList.ops
    else if (line.drop 1).filter (fun c => c ≠ ' ') = "members".toList then
      some RoleList.members
    else none
  else none

/-- Follows the words of the role-file claim, not the source: the list named by
the most recent recognized header among the lines `preceding` a line, and
`members` when there is none. -/
def activeRole (k : Constants) (preceding : List Str) : RoleList :=
  match preceding.reverse.filterMap (headerRole k) with
  | [] => RoleList.members
  | r :: _ => r

/-- Follows the words of the role-file claim, not the source: what the lines
`rest`, which come after the lines `preceding`, contribute to the list `r`. A
data line (one that does not start with the comment character) contributes its
text without spaces, when that is not empty, to the list that is active at its
place; a header line contributes nothing. -/
def expectedEntries (k : Constants) (r : RoleList) : List Str → List Str → List Str
  | _, [] => []
  | preceding, line :: rest =>
    (if at0 line ≠ k.COMMENTPREFIX ∧ line.filter (fun c => c ≠ ' ') ≠ []
        ∧ activeRole k preceding = r
      then [line.filter (fun c => c ≠ ' ')] else [])
      ++ expectedEntries k r (preceding ++ [line]) rest

/-- The list of a `Chat` that a `RoleList` value points to. -/
def Chat.roleList (chat : Chat) : RoleList → List Str
  | .admins => chat.admins
  | .ops => chat.ops
  | .members => chat.members

/-! ## Sample values -/

/-- Sample constants: `!` server message, `@` admin chat, `/` command, `#`
comment, and two-character colour codes. -/
def sampleConstants : Constants :=
  { SERVERMSGPREFIX := '!'
    ADMINCHATPREFIX := '@'
    CHATCMDPREFIX := '/'
    COMMENTPREFIX := '#'
    COLOR_RED := "§c".toList
    COLOR_GREEN := "§a".toList
    COLOR_BLUE := "§9".toList
    COLOR_YELLOW := "§e".toList
    COLOR_DARK_MAGENTA := "§5".toList
    COLOR_WHITE := "§f".toList }

/-- A sample `asctime` text. -/
def sampleClock : Str := "Sat Oct 30 12:34:56 2010\n".toList

/-- A guest who may chat. -/
def guestUser : User := ⟨"guest".toList, .GUEST, fun _ => true⟩

/-- An op who may chat. -/
def opUser : User := ⟨"op".toList, .OP, fun _ => true⟩

/-- An admin who may chat. -/
def adminUser : User := ⟨"root".toList, .ADMIN, fun _ => true⟩

/-- A member who may not communicate on any channel. -/
def mutedUser : User := ⟨"quiet".toList, .MEMBER, fun _ => false⟩

/-- A guest command with two aliases. -/
def helpCmd : Command := ⟨["help".toList, "?".toList], .GUEST, "[<command>]".toList, "help".toList⟩

/-- A member command. -/
def homeCmd : Command := ⟨["home".toList], .MEMBER, [], "go home".toList⟩

/-- An op command. -/
def kickCmd : Command := ⟨["kick".toList], .OP, "<player>".toList, "kick a player".toList⟩

/-- An admin command that reuses the alias of `helpCmd`. -/
def adminHelpCmd : Command := ⟨["help".toList], .ADMIN, [], "admin help".toList⟩

/-- A message of 300 characters. -/
def oversizeMsg : Str := List.replicate 300 'a'

/-- Sample templates: one comment line each. -/
def sampleTemplates : Templates :=
  { ROLES_CONTENT := "# roles".toList
    BANNED_CONTENT := "# banned".toList
    WHITELIST_CONTENT := "# whitelist".toList }

/-- A member who may chat. -/
def memberUser : User := ⟨"member".toList, .MEMBER, fun _ => true⟩

/-- A registry holding `help` (GUEST), `home` (MEMBER) and `kick` (OP). -/
def sampleChat : Chat :=
  registerCommand (registerCommand (registerCommand Chat.empty helpCmd) homeCmd) kickCmd

/-- A `Chat` whose role, ban and white lists are not empty. -/
def staleChat : Chat :=
  { Chat.empty with
    admins := ["old".toList]
    ops := ["older".toList]
    members := ["oldest".toList]
    banned := ["gone".toList]
    whitelist := ["back".toList] }

/-- A ban file with an empty second line. -/
def sampleBanFile : Str := "alice\n\n#note\nbob smith\n".toList

/-- A role file with a data line before any header, a header with spaces, a
header that names no list and a blank data line. -/
def sampleRoleFile : Str :=
  "zed\n#admins\nalice\n bob smith \n   \n# o p s\ncarl\n#other\ndan\n#members\neve".toList

/-! ## Lemmas on the command maps -/

theorem find_assign_same (m : CommandList) (k : Str) (v : Command) :
    (m.assign k v).find k = some v := by
  induction m with
  | nil => simp [CommandList.assign, CommandList.find]
  | cons p rest ih =>
    obtain ⟨k', v'⟩ := p
    unfold CommandList.assign
    by_cases h : k' = k
    · simp [h, CommandList.find]
    · by_cases h2 : strLess k k' = true
      · simp [h, h2, CommandList.find]
      · simp [h, h2, CommandList.find, ih]

theorem find_assign_other (m : CommandList) (k k2 : Str) (v : Command) (hne : k2 ≠ k) :
    (m.assign k v).find k2 = m.find k2 := by
  induction m with
  | nil => simp [CommandList.assign, CommandList.find, Ne.symm hne]
  | cons p rest ih =>
    obtain ⟨k', v'⟩ := p
    unfold CommandList.assign
    by_cases h : k' = k
    · subst h
      simp [CommandList.find, Ne.symm hne]
    · by_cases h2 : strLess k k' = true
      · simp [h, h2, CommandList.find, Ne.symm hne]
      · simp [h, h2, CommandList.find, ih]

theorem mappingFor_registerWord (chat : Chat) (c : Command) (w : Str) (T : Tier) :
    (registerWord chat c w).mappingFor T =
      if c.permissions ≤ T then (chat.mappingFor T).assign w c else chat.mappingFor T := by
  cases hp : c.permissions <;> cases T <;>
    simp [registerWord, hp, IS_ADMIN, IS_OP, IS_MEMBER, IS_GUEST, Chat.mappingFor] <;> rfl

theorem mappingFor_foldl_registerWord (c : Command) (T : Tier) (ws : List Str) (chat : Chat) :
    (ws.foldl (fun acc w => registerWord acc c w) chat).mappingFor T =
      if c.permissions ≤ T then ws.foldl (fun m w => m.assign w c) (chat.mappingFor T)
      else chat.mappingFor T := by
  induction ws generalizing chat with
  | nil => simp
  | cons w ws ih =>
    simp only [List.foldl_cons, ih, mappingFor_registerWord]
    by_cases h : c.permissions ≤ T <;> simp [h]

theorem find_foldl_assign (c : Command) (a : Str) (ws : List Str) (m : CommandList) :
    (ws.foldl (fun m w => m.assign w c) m).find a = if a ∈ ws then some c else m.find a := by
  induction ws generalizing m with
  | nil => simp
  | cons w ws ih =>
    simp only [List.foldl_cons, ih, List.mem_cons]
    by_cases h1 : a ∈ ws
    · simp [h1]
    · by_cases h2 : a = w
      · subst h2
        simp [h1, find_assign_same]
      · simp [h1, h2, find_assign_other _ _ _ _ h2]

theorem find_registerCommand (chat : Chat) (c : Command) (T : Tier) (a : Str) :
    ((registerCommand chat c).mappingFor T).find a =
      if c.permissions ≤ T ∧ a ∈ c.names then some c else (chat.mappingFor T).find a := by
  unfold registerCommand
  rw [mappingFor_foldl_registerWord]
  by_cases h : c.permissions ≤ T
  · simp [h, find_foldl_assign]
  · simp [h]

theorem mappingFor_registerCommand_below (chat : Chat) (c : Command) (T : Tier)
    (h : T < c.permissions) : (registerCommand chat c).mappingFor T = chat.mappingFor T := by
  unfold registerCommand
  rw [mappingFor_foldl_registerWord]
  have h2 : ¬ c.permissions ≤ T := Nat.not_le_of_lt h
  simp [h2]

theorem tier_lt_of_not_le {a b : Tier} (h : ¬ a ≤ b) : b < a := Nat.lt_of_not_le h

theorem tier_le_of_le_of_lt {a b c : Tier} (h1 : a ≤ b) (h2 : b < c) : a ≤ c :=
  Nat.le_of_lt (Nat.lt_of_le_of_lt h1 h2)

theorem cascade_registerCommand (chat : Chat) (c : Command)
    (hinv : CascadeBindings chat) (hc : Compatible chat c) :
    CascadeBindings (registerCommand chat c) := by
  intro T1 T2 hlt a d hfind
  rw [find_registerCommand] at hfind ⊢
  by_cases ha : a ∈ c.names
  · by_cases h1 : c.permissions ≤ T1
    · have h2 : c.permissions ≤ T2 := tier_le_of_le_of_lt h1 hlt
      simp [h1, h2, ha] at hfind ⊢
      exact hfind
    · by_cases h2 : c.permissions ≤ T2
      · simp [h1] at hfind
        rcases hc a ha T1 (tier_lt_of_not_le h1) with h | h
        · rw [h] at hfind; cases hfind
        · rw [h] at hfind
          simp [h2, ha]
          exact Option.some.inj hfind
      · simp [h1] at hfind
        simp [h2]
        exact hinv T1 T2 hlt a d hfind
  · simp [ha] at hfind ⊢
    exact hinv T1 T2 hlt a d hfind

theorem cascade_empty : CascadeBindings Chat.empty := by
  intro T1 T2 _ a c h
  cases T1 <;> simp [Chat.empty, Chat.mappingFor, CommandList.find] at h

/-! ## The command registry and the dispatcher -/

/-- C1. Anti-probing dispatch fails on the code: after registering the member
command `home` in an empty registry the alias is absent from `guestCommands`
and present in `memberCommands`, and a GUEST who types `/home` has the handler
called, while the unregistered `/nope` calls nothing. -/
theorem guest_invokes_member_command :
    (registerCommand Chat.empty homeCmd).guestCommands.find "home".toList = none ∧
    (registerCommand Chat.empty homeCmd).memberCommands.find "home".toList = some homeCmd ∧
    handleMsg sampleConstants (registerCommand Chat.empty homeCmd) sampleClock guestUser
        "/home now".toList
      = .ok (true, [Effect.callback homeCmd guestUser "home".toList ["now".toList]]) ∧
    handleMsg sampleConstants (registerCommand Chat.empty homeCmd) sampleClock guestUser
        "/nope now".toList
      = .ok (true, []) :=
  ⟨rfl, rfl, rfl, rfl⟩

/-- C2. Dispatch success fails on the code: after registering the op command
`kick` in an empty registry the alias is bound in `opCommands`, yet an OP who
types `/kick bob` has no handler called and nothing sent. -/
theorem op_command_not_dispatched :
    (registerCommand Chat.empty kickCmd).opCommands.find "kick".toList = some kickCmd ∧
    handleMsg sampleConstants (registerCommand Chat.empty kickCmd) sampleClock opUser
        "/kick bob".toList
      = .ok (true, []) :=
  ⟨rfl, rfl⟩

/-- C3, as stated, is false: registering the guest command `help` and then the
admin command that reuses the alias `help` leaves `guestCommands` binding the
alias to the first command and `adminCommands` binding it to the second, so the
cascade on bindings does not hold after every sequence of registrations. -/
theorem cascade_bindings_fails :
    ((([helpCmd, adminHelpCmd].foldl registerCommand Chat.empty).mappingFor .GUEST).find
        "help".toList = some helpCmd ∧
      (([helpCmd, adminHelpCmd].foldl registerCommand Chat.empty).mappingFor .ADMIN).find
        "help".toList = some adminHelpCmd) ∧
    ¬ (∀ cs : List Command, CascadeBindings (cs.foldl registerCommand Chat.empty)) := by
  refine ⟨⟨rfl, rfl⟩, fun hall => ?_⟩
  have h := hall [helpCmd, adminHelpCmd] .GUEST .ADMIN (by decide) "help".toList helpCmd rfl
  have h2 : (([helpCmd, adminHelpCmd].foldl registerCommand Chat.empty).mappingFor .ADMIN).find
      "help".toList = some adminHelpCmd := rfl
  rw [h2] at h
  exact absurd (Option.some.inj h) (by decide)

/-- C3, amended. Starting from four empty maps, after every sequence of
`registerCommand` calls none of which registers an alias that the map of a tier
below the command's own tier binds, at that moment, to another command, the
cascade on bindings holds: for all tiers T1 < T2 every binding of the map for T1
is a binding of the map for T2. -/
theorem cascade_bindings_of_admissible (cs : List Command)
    (hadm : Admissible Chat.empty cs) :
    CascadeBindings (cs.foldl registerCommand Chat.empty) := by
  have key : ∀ (l : List Command) (chat : Chat), CascadeBindings chat → Admissible chat l →
      CascadeBindings (l.foldl registerCommand chat) := by
    intro l
    induction l with
    | nil => intro chat hinv _; exact hinv
    | cons c l ih =>
      intro chat hinv h
      exact ih _ (cascade_registerCommand chat c hinv h.1) h.2
  exact key cs Chat.empty cascade_empty hadm

/-- Witness of `cascade_bindings_of_admissible`: `help` (GUEST, two aliases),
then `kick` (OP), then `help` once more. -/
theorem cascade_bindings_of_admissible_witness :
    Admissible Chat.empty [helpCmd, kickCmd, helpCmd] ∧
    CascadeBindings ([helpCmd, kickCmd, helpCmd].foldl registerCommand Chat.empty) := by
  have hadm : Admissible Chat.empty [helpCmd, kickCmd, helpCmd] := by
    refine ⟨?_, ?_, ?_, trivial⟩
    · intro a _ T hT
      cases T <;> exact absurd hT (by decide)
    · intro a ha T hT
      simp only [kickCmd, List.mem_singleton] at ha
      subst ha
      cases T
      · exact Or.inl rfl
      · exact Or.inl rfl
      · exact absurd hT (by decide)
      · exact absurd hT (by decide)
    · intro a _ T hT
      cases T <;> exact absurd hT (by decide)
  exact ⟨hadm, cascade_bindings_of_admissible _ hadm⟩

/-- C4. Registration placement: after `registerCommand` every alias of the
command is bound to the command in the map of the command's tier and of every
tier above it, the maps of the tiers below it are unchanged, and in every map
the aliases that are not names of the command keep their binding. -/
theorem registerCommand_placement (chat : Chat) (c : Command) :
    (∀ T : Tier, c.permissions ≤ T → ∀ a ∈ c.names,
        ((registerCommand chat c).mappingFor T).find a = some c) ∧
    (∀ T : Tier, T < c.permissions →
        (registerCommand chat c).mappingFor T = chat.mappingFor T) ∧
    (∀ (T : Tier) (a : Str), a ∉ c.names →
        ((registerCommand chat c).mappingFor T).find a = (chat.mappingFor T).find a) := by
  refine ⟨?_, ?_, ?_⟩
  · intro T hT a ha
    rw [find_registerCommand]
    simp [hT, ha]
  · intro T hT
    exact mappingFor_registerCommand_below chat c T hT
  · intro T a ha
    rw [find_registerCommand]
    simp [ha]

/-- Witness of `registerCommand_placement`: the guest command `help` reaches
the OP map, and the admin command `help` leaves the OP map as it was. -/
theorem registerCommand_placement_witness :
    ((registerCommand Chat.empty helpCmd).mappingFor .OP).find "?".toList = some helpCmd ∧
    (registerCommand (registerCommand Chat.empty helpCmd) adminHelpCmd).mappingFor .OP
      = (registerCommand Chat.empty helpCmd).mappingFor .OP :=
  ⟨(registerCommand_placement Chat.empty helpCmd).1 .OP (by decide) "?".toList
      (by simp [helpCmd]),
    (registerCommand_placement (registerCommand Chat.empty helpCmd) adminHelpCmd).2.1 .OP
      (by decide)⟩

/-! ## The tokenizer -/

theorem skipSpaces_replicate (n : Nat) : skipSpaces (List.replicate n ' ') = [] := by
  induction n with
  | zero => rfl
  | succ n ih => simp [List.replicate, skipSpaces, ih]

/-- C5. The tokenizer departs from the reference semantics when the input ends
in two or more spaces: `parseCmd("ls  ")` is `["ls", ""]`, with an empty last
token, where the maximal runs of non-space characters are `["ls"]`. The input
of the claim, `"  ls   -a "`, does give `["ls", "-a"]`. -/
theorem parseCmd_trailing_spaces_empty_token :
    parseCmd "ls  ".toList = .ok ["ls".toList, []] ∧
    maximalRuns "ls  ".toList = ["ls".toList] ∧
    parseCmd "  ls   -a ".toList = .ok ["ls".toList, "-a".toList] ∧
    maximalRuns "  ls   -a ".toList = ["ls".toList, "-a".toList] :=
  ⟨rfl, rfl, rfl, rfl⟩

/-- C6. The sentinel is returned for the empty input only: `parseCmd("")` is
`["empty"]`, but on every input of one or more spaces, `"   "` among them,
`parseCmd` returns the one-element sequence holding the empty string. -/
theorem parseCmd_spaces_only_empty_token :
    parseCmd [] = .ok ["empty".toList] ∧
    parseCmd "   ".toList = .ok [[]] ∧
    ∀ n : Nat, parseCmd (List.replicate (n + 1) ' ') = .ok [[]] := by
  refine ⟨rfl, rfl, fun n => ?_⟩
  have hloop : parseCmdLoop ((List.replicate (n + 1) ' ').length + 1)
      (List.replicate (n + 1) ' ') [] = .ok [[]] := by
    simp [parseCmdLoop, skipSpaces_replicate, find]
  unfold parseCmd
  rw [hloop]
  rfl

/-! ## The wire frame -/

theorem tmpArray_length (msg : Str) : (tmpArray msg).length = msg.length + 3 := by
  simp [tmpArray]

theorem tmpArray_replicate (n : Nat) (c : Char) :
    tmpArray (List.replicate n c) = [0x03, 0x00, n % 256] ++ List.replicate n (byteOf c) := by
  simp [tmpArray]

theorem framePayload_tmpArray (msg : Str) : framePayload (tmpArray msg) = msg.map byteOf := by
  simp [framePayload, tmpArray]

theorem IS_ADMIN_iff (p : Tier) : IS_ADMIN p = true ↔ p = Tier.ADMIN := by
  cases p <;> simp [IS_ADMIN] <;> decide

/-- C8, as stated, is false: for the message of 300 characters `a` the frame has
303 bytes, not 258, and its payload is all 300 message bytes, not the first 255;
byte 2 is 44. -/
theorem sendMsg_oversize_not_truncated :
    sendMsg guestUser oversizeMsg .ALL
      = (true, [Effect.transport .ALL ([0x03, 0x00, 44] ++ List.replicate 300 97)]) ∧
    (tmpArray oversizeMsg).length = 303 ∧
    (tmpArray oversizeMsg).length ≠ 258 ∧
    framePayload (tmpArray oversizeMsg) ≠ (oversizeMsg.take 255).map byteOf := by
  have hsize : oversizeMsg.length = 300 := List.length_replicate 300 'a'
  have hframe : tmpArray oversizeMsg = [0x03, 0x00, 44] ++ List.replicate 300 97 :=
    tmpArray_replicate 300 'a'
  have hlen : (tmpArray oversizeMsg).length = 303 := by
    rw [tmpArray_length, hsize]
  refine ⟨?_, hlen, ?_, ?_⟩
  · unfold sendMsg
    rw [hframe]
  · rw [hlen]
    decide
  · intro heq
    have h1 : (framePayload (tmpArray oversizeMsg)).length = 300 := by
      rw [framePayload_tmpArray, List.length_map, hsize]
    have h2 : ((oversizeMsg.take 255).map byteOf).length = 255 := by
      rw [List.length_map, List.length_take, hsize]
      decide
    rw [heq, h2] at h1
    exact absurd h1 (by decide)

/-- C8, amended. For every message of n > 255 characters the frame handed to the
transport has byte 0 = 0x03, byte 1 = 0x00, byte 2 = n mod 256, and a payload
that is the whole message, all n bytes in order (total frame length n + 3). -/
theorem sendMsg_frame_oversize (user : User) (msg : Str) (action : MessageTarget)
    (_h : 255 < msg.length) :
    sendMsg user msg action
      = (true, [Effect.transport action ([0x03, 0x00, msg.length % 256] ++ msg.map byteOf)]) ∧
    (tmpArray msg).getD 0 0 = 0x03 ∧
    (tmpArray msg).getD 1 0 = 0x00 ∧
    (tmpArray msg).getD 2 0 = msg.length % 256 ∧
    framePayload (tmpArray msg) = msg.map byteOf ∧
    (tmpArray msg).length = msg.length + 3 := by
  refine ⟨?_, ?_, ?_, ?_, framePayload_tmpArray msg, tmpArray_length msg⟩ <;>
    simp [sendMsg, tmpArray]

/-- Witness of `sendMsg_frame_oversize`: 300 characters give byte 2 = 44 and a
payload of 300 bytes. -/
theorem sendMsg_frame_oversize_witness :
    255 < oversizeMsg.length ∧ (tmpArray oversizeMsg).getD 2 0 = 44 ∧
    (framePayload (tmpArray oversizeMsg)).length = 300 := by
  have hsize : oversizeMsg.length = 300 := List.length_replicate 300 'a'
  have hlen : 255 < oversizeMsg.length := by
    rw [hsize]
    decide
  have h := sendMsg_frame_oversize guestUser oversizeMsg .ALL hlen
  refine ⟨hlen, ?_, ?_⟩
  · rw [h.2.2.2.1, hsize]
  · rw [h.2.2.2.2.1, List.length_map, hsize]

/-! ## The classifier -/

/-- C9. Server broadcast: for an ADMIN sender and a line that starts with the
server-message prefix, `handleMsg` returns true after exactly one transport
call, with selector ALL, on the frame whose payload is the red colour code,
`"[!] "`, the green colour code and the line without its first character; no
callback is called and nothing is logged. -/
theorem handleMsg_server_broadcast (k : Constants) (chat : Chat) (clock : Str) (user : User)
    (rest : Str) (hadmin : user.permissions = Tier.ADMIN) :
    handleMsg k chat clock user (k.SERVERMSGPREFIX :: rest)
      = .ok (true, [Effect.transport .ALL
          (tmpArray (k.COLOR_RED ++ "[!] ".toList ++ k.COLOR_GREEN ++ rest))]) ∧
    framePayload (tmpArray (k.COLOR_RED ++ "[!] ".toList ++ k.COLOR_GREEN ++ rest))
      = (k.COLOR_RED ++ "[!] ".toList ++ k.COLOR_GREEN ++ rest).map byteOf := by
  have hA : IS_ADMIN user.permissions = true := (IS_ADMIN_iff _).2 hadmin
  constructor
  · simp [handleMsg, at0, hA, substr, sendMsg]
  · exact framePayload_tmpArray _

/-- Witness of `handleMsg_server_broadcast`: `"!Server restarting"` from an
admin, with prefix `!`. -/
theorem handleMsg_server_broadcast_witness :
    handleMsg sampleConstants Chat.empty sampleClock adminUser "!Server restarting".toList
      = .ok (true, [Effect.transport .ALL (tmpArray "§c[!] §aServer restarting".toList)]) :=
  (handleMsg_server_broadcast sampleConstants Chat.empty sampleClock adminUser
    "Server restarting".toList rfl).1

/-- C10. Muted plain chat is dropped: when the sender's communicability check
for `"chat"` is false and the line falls through to the plain-chat branch (it is
not an admin's server-message or admin-chat line and does not start with the
command prefix), `handleMsg` returns true with no transport call and no log
entry. -/
theorem handleMsg_muted_plain_chat (k : Constants) (chat : Chat) (clock : Str) (user : User)
    (msg : Str)
    (hmute : user.isAbleToCommunicate "chat".toList = false)
    (hserver : ¬ (at0 msg = k.SERVERMSGPREFIX ∧ user.permissions = Tier.ADMIN))
    (hadmin : ¬ (at0 msg = k.ADMINCHATPREFIX ∧ user.permissions = Tier.ADMIN))
    (hcmd : at0 msg ≠ k.CHATCMDPREFIX) :
    handleMsg k chat clock user msg = .ok (true, []) := by
  rw [← IS_ADMIN_iff] at hserver hadmin
  have hm : user.isAbleToCommunicate ['c', 'h', 'a', 't'] = false := hmute
  simp [handleMsg, hserver, hadmin, hcmd, hm]

/-- Witness of `handleMsg_muted_plain_chat`: a muted member says `hello`. -/
theorem handleMsg_muted_plain_chat_witness :
    handleMsg sampleConstants Chat.empty sampleClock mutedUser "hello".toList = .ok (true, []) :=
  handleMsg_muted_plain_chat sampleConstants Chat.empty sampleClock mutedUser "hello".toList
    rfl (by decide) (by decide) (by decide)

/-! ## The help formatter -/

theorem helpCommandList_eq (chat : Chat) (p : Tier) :
    helpCommandList chat p = chat.mappingFor p := by
  cases p <;> rfl

theorem sendHelpList_eq (k : Constants) (user : User) (color : Str) (m : CommandList) :
    sendHelpList k user color m =
      m.map (fun e => Effect.transport .USER
        (tmpArray (color ++ [k.CHATCMDPREFIX] ++ e.1 ++ " ".toList ++ e.2.arguments
          ++ " : ".toList ++ k.COLOR_YELLOW ++ e.2.description))) := by
  induction m with
  | nil => rfl
  | cons e rest ih =>
    obtain ⟨first, second⟩ := e
    simp [sendHelpList, sendMsg, ih]

/-- C15. Help detail: with a non-empty argument list `sendHelp` looks the first
argument up in the map of the requester's own tier. When it is bound, exactly
two frames are sent, the usage line and then the description line; when it is
not, exactly one frame is sent, whose text is the red colour code, `"Unknown
Command: "` and the first argument as typed. Every frame goes to the sender
only (`USER`). -/
theorem sendHelp_detail (k : Constants) (chat : Chat) (user : User) (front : Str)
    (rest : List Str) :
    sendHelp k chat user (front :: rest) =
      match (chat.mappingFor user.permissions).find front with
      | some c =>
        [Effect.transport .USER (tmpArray (commandColor k user.permissions
            ++ [k.CHATCMDPREFIX] ++ front ++ " ".toList ++ c.arguments)),
          Effect.transport .USER (tmpArray (k.COLOR_YELLOW ++ [k.CHATCMDPREFIX]
            ++ c.description))]
      | none =>
        [Effect.transport .USER (tmpArray (k.COLOR_RED ++ "Unknown Command: ".toList
            ++ front))] := by
  simp only [sendHelp, helpCommandList_eq]
  cases (chat.mappingFor user.permissions).find front <;> rfl

/-- C16. Help list: with no argument `sendHelp` sends exactly one frame per
entry of the map of the requester's tier, in the order of the map, and nothing
else. Each goes to the sender only (`USER`) and holds the colour of the
requester's tier (red for ADMIN, green for OP, blue for MEMBER and GUEST), the
command character, the alias, a space, the argument string, `" : "`, the yellow
colour code and the description. -/
theorem sendHelp_list (k : Constants) (chat : Chat) (user : User) :
    sendHelp k chat user [] =
      (chat.mappingFor user.permissions).map (fun e => Effect.transport .USER
        (tmpArray (commandColor k user.permissions ++ [k.CHATCMDPREFIX] ++ e.1 ++ " ".toList
          ++ e.2.arguments ++ " : ".toList ++ k.COLOR_YELLOW ++ e.2.description))) ∧
    (sendHelp k chat user []).length = (chat.mappingFor user.permissions).length ∧
    commandColor k .ADMIN = k.COLOR_RED ∧ commandColor k .OP = k.COLOR_GREEN ∧
    commandColor k .MEMBER = k.COLOR_BLUE ∧ commandColor k .GUEST = k.COLOR_BLUE := by
  have h : sendHelp k chat user [] =
      (chat.mappingFor user.permissions).map (fun e => Effect.transport .USER
        (tmpArray (commandColor k user.permissions ++ [k.CHATCMDPREFIX] ++ e.1 ++ " ".toList
          ++ e.2.arguments ++ " : ".toList ++ k.COLOR_YELLOW ++ e.2.description))) := by
    simp only [sendHelp, helpCommandList_eq]
    exact sendHelpList_eq k user _ _
  refine ⟨h, ?_, rfl, rfl, rfl, rfl⟩
  rw [h, List.length_map]

/-! ## The empty line and the tokenizer as seen by the dispatcher -/

/-- C17. Empty line is defined behaviour: when none of the three prefix
characters is the zero character, `handleMsg` on the zero-length line returns
true without a fault for every sender. The read `msg[0]` gives the terminating
zero character, which matches no prefix, so the line is never handled as a
server message, as admin chat or as a command: it is plain chat with an empty
body. A sender who may not communicate causes no call; otherwise there is the
log entry and exactly one transport call, to ALL, on the frame whose payload is
the time stamp and the decoration of the sender (with the colour codes for an
ADMIN), followed by no message character. -/
theorem handleMsg_empty_line (k : Constants) (chat : Chat) (clock : Str) (user : User)
    (hserver : k.SERVERMSGPREFIX ≠ Char.ofNat 0)
    (hadmin : k.ADMINCHATPREFIX ≠ Char.ofNat 0)
    (hcmd : k.CHATCMDPREFIX ≠ Char.ofNat 0) :
    at0 [] = Char.ofNat 0 ∧
    handleMsg k chat clock user [] =
      .ok (true,
        if user.isAbleToCommunicate "chat".toList = false then []
        else if IS_ADMIN user.permissions = true then
          [Effect.log ((clock.drop 11).take 5 ++ " <".toList ++ k.COLOR_DARK_MAGENTA
              ++ user.nick ++ k.COLOR_WHITE ++ "> ".toList),
            Effect.transport .ALL (tmpArray ((clock.drop 11).take 5 ++ " <".toList
              ++ k.COLOR_DARK_MAGENTA ++ user.nick ++ k.COLOR_WHITE ++ "> ".toList))]
        else
          [Effect.log ((clock.drop 11).take 5 ++ " <".toList ++ user.nick ++ "> ".toList),
            Effect.transport .ALL (tmpArray ((clock.drop 11).take 5 ++ " <".toList
              ++ user.nick ++ "> ".toList))]) := by
  refine ⟨rfl, ?_⟩
  have h0 : at0 ([] : Str) = Char.ofNat 0 := rfl
  have h1 : ¬ (at0 ([] : Str) = k.SERVERMSGPREFIX ∧ IS_ADMIN user.permissions = true) :=
    fun h => hserver (h0 ▸ h.1).symm
  have h2 : ¬ (at0 ([] : Str) = k.ADMINCHATPREFIX ∧ IS_ADMIN user.permissions = true) :=
    fun h => hadmin (h0 ▸ h.1).symm
  have h3 : ¬ at0 ([] : Str) = k.CHATCMDPREFIX := fun h => hcmd (h0 ▸ h).symm
  unfold handleMsg
  simp only [if_neg h1, if_neg h2, if_neg h3]
  by_cases hm : user.isAbleToCommunicate "chat".toList = false
  · simp only [if_pos hm]
  · simp only [if_neg hm]
    by_cases hA : IS_ADMIN user.permissions = true
    · simp only [if_pos hA, List.append_nil]
      rfl
    · simp only [if_neg hA, List.append_nil]
      rfl

/-- Witness of `handleMsg_empty_line`: the empty line from a guest, from an
admin and from a muted member, with the prefixes `!`, `@` and `/`. -/
theorem handleMsg_empty_line_witness :
    handleMsg sampleConstants sampleChat sampleClock guestUser []
      = .ok (true, [Effect.log "12:34 <guest> ".toList,
          Effect.transport .ALL (tmpArray "12:34 <guest> ".toList)]) ∧
    handleMsg sampleConstants sampleChat sampleClock adminUser []
      = .ok (true, [Effect.log "12:34 <§5root§f> ".toList,
          Effect.transport .ALL (tmpArray "12:34 <§5root§f> ".toList)]) ∧
    handleMsg sampleConstants sampleChat sampleClock mutedUser [] = .ok (true, []) :=
  ⟨(handleMsg_empty_line sampleConstants sampleChat sampleClock guestUser
      (by decide) (by decide) (by decide)).2,
    (handleMsg_empty_line sampleConstants sampleChat sampleClock adminUser
      (by decide) (by decide) (by decide)).2,
    (handleMsg_empty_line sampleConstants sampleChat sampleClock mutedUser
      (by decide) (by decide) (by decide)).2⟩

theorem skipSpaces_length_le (s : Str) : (skipSpaces s).length ≤ s.length := by
  induction s with
  | nil => simp [skipSpaces]
  | cons c rest ih =>
    unfold skipSpaces
    by_cases h : c = ' '
    · simp [h]; omega
    · simp [h]

theorem find_lt_length (s : Str) (c : Char) (i : Nat) (h : find s c = some i) :
    i < s.length := by
  induction s generalizing i with
  | nil => simp [find] at h
  | cons x xs ih =>
    unfold find at h
    by_cases hx : x = c
    · simp [hx] at h
      subst h
      simp
    · simp [hx] at h
      obtain ⟨j, hj, rfl⟩ := h
      have := ih j hj
      simp
      omega

theorem parseCmdLoop_total (fuel : Nat) (cmd : Str) (temp : List Str) (h : cmd.length < fuel) :
    ∃ toks, parseCmdLoop fuel cmd temp = .ok toks ∧ temp.length ≤ toks.length := by
  induction fuel generalizing cmd temp with
  | zero => omega
  | succ fuel ih =>
    unfold parseCmdLoop
    by_cases hpos : cmd.length > 0
    · simp only [hpos, if_true]
      cases hf : find (skipSpaces cmd) ' ' with
      | none =>
        refine ⟨temp ++ [skipSpaces cmd], rfl, ?_⟩
        simp
      | some del =>
        have hdel := find_lt_length _ _ _ hf
        have hskip := skipSpaces_length_le cmd
        have hlen : ((skipSpaces cmd).drop (del + 1)).length < fuel := by
          simp
          omega
        obtain ⟨toks, htoks, hle⟩ := ih ((skipSpaces cmd).drop (del + 1))
          (temp ++ [(skipSpaces cmd).take del]) hlen
        refine ⟨toks, htoks, ?_⟩
        simp at hle
        omega
    · refine ⟨temp, ?_, le_refl _⟩
      simp [hpos]

theorem parseCmd_ok (cmd : Str) : ∃ toks, parseCmd cmd = .ok toks ∧ toks ≠ [] := by
  obtain ⟨toks, htoks, _⟩ := parseCmdLoop_total (cmd.length + 1) cmd [] (Nat.lt_succ_self _)
  unfold parseCmd
  rw [htoks]
  cases toks with
  | nil => exact ⟨_, rfl, by simp⟩
  | cons a l => exact ⟨a :: l, rfl, by simp⟩

theorem dispatch_cons (chat : Chat) (user : User) (command : Str) (args : List Str) :
    ∃ effects, dispatch chat user (command :: args) = .ok effects := by
  simp only [dispatch]
  cases hf : chat.memberCommands.find command with
  | some c => exact ⟨_, rfl⟩
  | none =>
    by_cases hA : IS_ADMIN user.permissions = true
    · simp only [hA, if_true]
      cases hg : chat.adminCommands.find command <;> exact ⟨_, rfl⟩
    · simp only [hA]
      exact ⟨_, rfl⟩

theorem substr_error (s : Str) (pos : Nat) (e : Fault) (h : substr s pos = .error e) :
    e = Fault.out_of_range := by
  unfold substr at h
  split_ifs at h
  cases h
  rfl

/-- C18. Tokenizer totality and non-emptiness: on every input `parseCmd`
returns (the loop never needs more iterations than the input has characters,
plus one), and what it returns has at least one token; so `handleMsg` never
reads `cmd[0]` or calls `pop_front` on an empty sequence. -/
theorem parseCmd_total_nonempty (cmd : Str) :
    (∃ toks, parseCmd cmd = .ok toks ∧ toks ≠ [] ∧ 1 ≤ toks.length) ∧
    (∀ (k : Constants) (chat : Chat) (clock : Str) (user : User) (msg : Str),
      handleMsg k chat clock user msg ≠ .error Fault.empty_deque ∧
      handleMsg k chat clock user msg ≠ .error Fault.no_fuel) := by
  constructor
  · obtain ⟨toks, h, hne⟩ := parseCmd_ok cmd
    exact ⟨toks, h, hne, List.length_pos.2 hne⟩
  · intro k chat clock user msg
    unfold handleMsg
    simp only []
    split_ifs with h1 h2 h3 h4
    · cases hs : substr msg 1 with
      | error e => rw [substr_error _ _ e hs]; simp
      | ok rest => simp
    · cases hs : substr msg 1 with
      | error e => rw [substr_error _ _ e hs]; simp
      | ok rest => simp
    · cases hs : substr msg 1 with
      | error e => rw [substr_error _ _ e hs]; simp
      | ok rest =>
        obtain ⟨toks, htoks, hne⟩ := parseCmd_ok rest
        cases toks with
        | nil => exact absurd rfl hne
        | cons command args =>
          obtain ⟨effects, heff⟩ := dispatch_cons chat user command args
          simp [htoks, heff]
    all_goals simp

/-- C19. Admin-only characters are inert for non-admins: when the sender is not
an ADMIN and the line starts with the server-message or the admin-chat
character, which is not the command character, `handleMsg` handles the line as
plain chat. A sender who may not communicate causes no call; otherwise there is
the log entry and exactly one transport call, to ALL, on the frame whose payload
is the time stamp, `" <"`, the nick, `"> "` and then the whole line, its first
character included: nothing goes to ADMINS and no `"[!] "` is put in front. -/
theorem handleMsg_admin_prefix_inert (k : Constants) (chat : Chat) (clock : Str) (user : User)
    (c : Char) (rest : Str)
    (hna : user.permissions ≠ Tier.ADMIN)
    (_hfirst : c = k.SERVERMSGPREFIX ∨ c = k.ADMINCHATPREFIX)
    (hcmd : c ≠ k.CHATCMDPREFIX) :
    handleMsg k chat clock user (c :: rest) =
      .ok (true,
        if user.isAbleToCommunicate "chat".toList = false then []
        else
          [Effect.log ((clock.drop 11).take 5 ++ " <".toList ++ user.nick ++ "> ".toList
              ++ c :: rest),
            Effect.transport .ALL (tmpArray ((clock.drop 11).take 5 ++ " <".toList ++ user.nick
              ++ "> ".toList ++ c :: rest))]) ∧
    framePayload (tmpArray ((clock.drop 11).take 5 ++ " <".toList ++ user.nick
        ++ "> ".toList ++ c :: rest))
      = ((clock.drop 11).take 5 ++ " <".toList ++ user.nick ++ "> ".toList).map byteOf
        ++ (c :: rest).map byteOf := by
  have hA : ¬ IS_ADMIN user.permissions = true := fun h => hna ((IS_ADMIN_iff _).1 h)
  constructor
  · have h1 : ¬ (at0 (c :: rest) = k.SERVERMSGPREFIX ∧ IS_ADMIN user.permissions = true) :=
      fun h => hA h.2
    have h2 : ¬ (at0 (c :: rest) = k.ADMINCHATPREFIX ∧ IS_ADMIN user.permissions = true) :=
      fun h => hA h.2
    have h3 : ¬ at0 (c :: rest) = k.CHATCMDPREFIX := hcmd
    unfold handleMsg
    simp only [if_neg h1, if_neg h2, if_neg h3, if_neg hA]
    by_cases hm : user.isAbleToCommunicate "chat".toList = false
    · simp only [if_pos hm]
    · simp only [if_neg hm]
      rfl
  · rw [framePayload_tmpArray, List.map_append]

/-- Witness of `handleMsg_admin_prefix_inert`: a member types `!hello` and
`@hello`. -/
theorem handleMsg_admin_prefix_inert_witness :
    handleMsg sampleConstants sampleChat sampleClock memberUser "!hello".toList
      = .ok (true, [Effect.log "12:34 <member> !hello".toList,
          Effect.transport .ALL (tmpArray "12:34 <member> !hello".toList)]) ∧
    handleMsg sampleConstants sampleChat sampleClock memberUser "@hello".toList
      = .ok (true, [Effect.log "12:34 <member> @hello".toList,
          Effect.transport .ALL (tmpArray "12:34 <member> @hello".toList)]) :=
  ⟨(handleMsg_admin_prefix_inert sampleConstants sampleChat sampleClock memberUser '!'
      "hello".toList (by decide) (Or.inl rfl) (by decide)).1,
    (handleMsg_admin_prefix_inert sampleConstants sampleChat sampleClock memberUser '@'
      "hello".toList (by decide) (Or.inr rfl) (by decide)).1⟩

/-! ## The cascade on alias sets -/

theorem mem_aliases_iff (m : CommandList) (a : Str) : a ∈ m.aliases ↔ m.find a ≠ none := by
  induction m with
  | nil => simp [CommandList.aliases, CommandList.find]
  | cons e rest ih =>
    obtain ⟨k', v⟩ := e
    by_cases h : k' = a
    · subst h
      simp only [CommandList.aliases, List.map_cons, List.mem_cons, CommandList.find]
      exact ⟨fun _ => by rw [if_pos trivial]; exact Option.some_ne_none v,
        fun _ => Or.inl trivial⟩
    · have ih2 := ih
      simp only [CommandList.aliases] at ih2
      simp only [CommandList.aliases, List.map_cons, List.mem_cons, CommandList.find, if_neg h]
      rw [ih2]
      constructor
      · rintro (h1 | h1)
        · exact absurd h1.symm h
        · exact h1
      · exact fun h1 => Or.inr h1

theorem cascadeAliases_registerCommand (chat : Chat) (c : Command)
    (hinv : CascadeAliases chat) : CascadeAliases (registerCommand chat c) := by
  intro T1 T2 hlt a hfind
  rw [find_registerCommand] at hfind ⊢
  by_cases h1 : c.permissions ≤ T1 ∧ a ∈ c.names
  · have h2 : c.permissions ≤ T2 ∧ a ∈ c.names := ⟨tier_le_of_le_of_lt h1.1 hlt, h1.2⟩
    simp [h2]
  · rw [if_neg h1] at hfind
    by_cases h2 : c.permissions ≤ T2 ∧ a ∈ c.names
    · simp [h2]
    · rw [if_neg h2]
      exact hinv T1 T2 hlt a hfind

theorem cascadeAliases_foldl (cs : List Command) (chat : Chat) (hinv : CascadeAliases chat) :
    CascadeAliases (cs.foldl registerCommand chat) := by
  induction cs generalizing chat with
  | nil => exact hinv
  | cons c cs ih => exact ih _ (cascadeAliases_registerCommand chat c hinv)

theorem cascadeAliases_empty : CascadeAliases Chat.empty := by
  intro T1 T2 _ a h
  cases T1 <;> exact absurd rfl h

/-- C20. Cascade on alias sets: starting from four empty maps, after every
finite sequence of `registerCommand` calls, re-registrations at any tier
included, the aliases of `guestCommands` are aliases of `memberCommands`, those
are aliases of `opCommands`, and those are aliases of `adminCommands`. -/
theorem cascade_alias_sets (cs : List Command) :
    (cs.foldl registerCommand Chat.empty).guestCommands.aliases
      ⊆ (cs.foldl registerCommand Chat.empty).memberCommands.aliases ∧
    (cs.foldl registerCommand Chat.empty).memberCommands.aliases
      ⊆ (cs.foldl registerCommand Chat.empty).opCommands.aliases ∧
    (cs.foldl registerCommand Chat.empty).opCommands.aliases
      ⊆ (cs.foldl registerCommand Chat.empty).adminCommands.aliases := by
  have hinv := cascadeAliases_foldl cs Chat.empty cascadeAliases_empty
  refine ⟨?_, ?_, ?_⟩
  · intro a ha
    rw [mem_aliases_iff] at ha ⊢
    exact hinv .GUEST .MEMBER (by decide) a ha
  · intro a ha
    rw [mem_aliases_iff] at ha ⊢
    exact hinv .MEMBER .OP (by decide) a ha
  · intro a ha
    rw [mem_aliases_iff] at ha ⊢
    exact hinv .OP .ADMIN (by decide) a ha

/-! ## The role, ban and whitelist files -/

theorem getlinesFrom_line (line rest cur : Str) (h : Char.ofNat 10 ∉ line) :
    getlinesFrom (line ++ (Char.ofNat 10 :: rest)) cur = (cur ++ line) :: getlinesFrom rest [] := by
  induction line generalizing cur with
  | nil => simp [getlinesFrom]
  | cons c line ih =>
    have hc : c ≠ Char.ofNat 10 := fun hc => h (by simp [hc])
    have hl : Char.ofNat 10 ∉ line := fun hl => h (by simp [hl])
    show getlinesFrom (c :: (line ++ (Char.ofNat 10 :: rest))) cur = _
    simp only [getlinesFrom, if_neg hc]
    rw [ih _ hl]
    simp

theorem getlines_fileOfLines (lines : List Str) (h : ∀ l ∈ lines, Char.ofNat 10 ∉ l) :
    getlines (fileOfLines lines) = lines := by
  induction lines with
  | nil => rfl
  | cons l ls ih =>
    have hl := h l (by simp)
    have hls : ∀ x ∈ ls, Char.ofNat 10 ∉ x := fun x hx => h x (by simp [hx])
    have ih2 := ih hls
    unfold getlines at ih2 ⊢
    simp only [fileOfLines]
    rw [getlinesFrom_line _ _ _ hl, ih2]
    simp

theorem eraseSpaces_of_not_mem (s : Str) (h : ' ' ∉ s) : eraseSpaces s = s := by
  unfold eraseSpaces
  rw [List.filter_eq_self]
  intro c hc
  have : c ≠ ' ' := fun e => h (e ▸ hc)
  simp [this]

theorem substr_one_of_ne_nil (s : Str) (h : s ≠ []) : substr s 1 = .ok (s.drop 1) := by
  cases s with
  | nil => exact absurd rfl h
  | cons c r => simp [substr]

theorem ne_nil_of_at0 (k : Constants) (h0 : k.COMMENTPREFIX ≠ Char.ofNat 0) (l : Str)
    (h : at0 l = k.COMMENTPREFIX) : l ≠ [] := by
  intro hl
  subst hl
  exact h0 h.symm

theorem activeRole_snoc (k : Constants) (pre : List Str) (l : Str) :
    activeRole k (pre ++ [l]) =
      match headerRole k l with
      | some r => r
      | none => activeRole k pre := by
  unfold activeRole
  rw [List.reverse_append]
  simp only [List.reverse_cons, List.reverse_nil, List.nil_append, List.singleton_append,
    List.filterMap_cons]
  cases headerRole k l <;> rfl

theorem roleList_pushRole (chat : Chat) (cur r : RoleList) (t : Str) :
    (pushRole chat cur t).roleList r = chat.roleList r ++ (if cur = r then [t] else []) := by
  cases cur <;> cases r <;> simp [pushRole, Chat.roleList]

theorem loadRolesLine_header (k : Constants) (h0 : k.COMMENTPREFIX ≠ Char.ofNat 0)
    (cur : RoleList) (chat : Chat) (l : Str) (h : at0 l = k.COMMENTPREFIX) :
    loadRolesLine k (cur, chat) l =
      .ok ((match headerRole k l with | some r => r | none => cur), chat) := by
  have hne := ne_nil_of_at0 k h0 l h
  unfold loadRolesLine headerRole
  simp only [h, if_true, substr_one_of_ne_nil l hne, eraseSpaces]
  by_cases h1 : (l.drop 1).filter (fun c => c ≠ ' ') = "admins".toList
  · rw [h1]; rfl
  · by_cases h2 : (l.drop 1).filter (fun c => c ≠ ' ') = "ops".toList
    · rw [h2]; rfl
    · by_cases h3 : (l.drop 1).filter (fun c => c ≠ ' ') = "members".toList
      · rw [h3]; rfl
      · simp only [h1, h2, h3, if_false]

theorem loadRolesLine_data (k : Constants) (cur : RoleList) (chat : Chat) (l : Str)
    (h : at0 l ≠ k.COMMENTPREFIX) :
    loadRolesLine k (cur, chat) l =
      .ok (cur, if l.filter (fun c => c ≠ ' ') ≠ [] then
        pushRole chat cur (l.filter (fun c => c ≠ ' ')) else chat) := by
  unfold loadRolesLine
  simp only [if_neg h, eraseSpaces]
  split_ifs <;> rfl

theorem headerRole_data (k : Constants) (l : Str) (h : at0 l ≠ k.COMMENTPREFIX) :
    headerRole k l = none := by
  unfold headerRole
  rw [if_neg h]

theorem expectedEntries_cons (k : Constants) (r : RoleList) (pre : List Str) (l : Str)
    (rest : List Str) :
    expectedEntries k r pre (l :: rest) =
      (if at0 l ≠ k.COMMENTPREFIX ∧ l.filter (fun c => c ≠ ' ') ≠ [] ∧ activeRole k pre = r
        then [l.filter (fun c => c ≠ ' ')] else [])
        ++ expectedEntries k r (pre ++ [l]) rest := rfl

theorem loadRolesLoop_spec (k : Constants) (h0 : k.COMMENTPREFIX ≠ Char.ofNat 0)
    (rest pre : List Str) (chat : Chat) :
    ∃ st, loadRolesLoop k rest (activeRole k pre, chat) = .ok st ∧
      (∀ r, st.2.roleList r = chat.roleList r ++ expectedEntries k r pre rest) ∧
      st.2.banned = chat.banned ∧ st.2.whitelist = chat.whitelist := by
  induction rest generalizing pre chat with
  | nil => exact ⟨_, rfl, fun r => by simp [expectedEntries], rfl, rfl⟩
  | cons l rest ih =>
    unfold loadRolesLoop
    by_cases h : at0 l = k.COMMENTPREFIX
    · rw [loadRolesLine_header k h0 _ _ l h]
      simp only []
      rw [← activeRole_snoc]
      obtain ⟨st, hst, hr, hb, hw⟩ := ih (pre ++ [l]) chat
      refine ⟨st, hst, fun r => ?_, hb, hw⟩
      have hc : ¬ (at0 l ≠ k.COMMENTPREFIX ∧ l.filter (fun c => c ≠ ' ') ≠ []
          ∧ activeRole k pre = r) := fun hh => hh.1 h
      rw [hr r, expectedEntries_cons, if_neg hc, List.nil_append]
    · rw [loadRolesLine_data k _ _ l h]
      simp only []
      have hact : activeRole k (pre ++ [l]) = activeRole k pre := by
        rw [activeRole_snoc, headerRole_data k l h]
      rw [← hact]
      by_cases h1 : l.filter (fun c => c ≠ ' ') = []
      · obtain ⟨st, hst, hr, hb, hw⟩ := ih (pre ++ [l]) chat
        rw [if_neg (not_not.2 h1)]
        refine ⟨st, hst, fun r => ?_, hb, hw⟩
        have hc : ¬ (at0 l ≠ k.COMMENTPREFIX ∧ l.filter (fun c => c ≠ ' ') ≠ []
            ∧ activeRole k pre = r) := fun hh => hh.2.1 h1
        rw [hr r, expectedEntries_cons, if_neg hc, List.nil_append]
      · obtain ⟨st, hst, hr, hb, hw⟩ := ih (pre ++ [l])
          (pushRole chat (activeRole k (pre ++ [l])) (l.filter (fun c => c ≠ ' ')))
        rw [if_pos h1]
        refine ⟨st, hst, fun r => ?_, ?_, ?_⟩
        · rw [hr r, roleList_pushRole, hact, expectedEntries_cons, List.append_assoc]
          by_cases h2 : activeRole k pre = r
          · rw [if_pos h2, if_pos ⟨h, h1, h2⟩]
          · have hc : ¬ (at0 l ≠ k.COMMENTPREFIX ∧ l.filter (fun c => c ≠ ' ') ≠ []
                ∧ activeRole k pre = r) := fun hh => h2 hh.2.2
            rw [if_neg h2, if_neg hc]
        · rw [hb]; cases activeRole k (pre ++ [l]) <;> rfl
        · rw [hw]; cases activeRole k (pre ++ [l]) <;> rfl

theorem loadRoles_lists (k : Constants) (t : Templates) (chat : Chat) (content : Str)
    (h0 : k.COMMENTPREFIX ≠ Char.ofNat 0) :
    ∃ res, loadRoles k t chat (some content) = .ok res ∧ res.ret = true ∧
      res.file = some content ∧
      (∀ r, res.chat.roleList r = expectedEntries k r [] (getlines content)) ∧
      res.chat.banned = chat.banned ∧ res.chat.whitelist = chat.whitelist := by
  obtain ⟨st, hst, hr, hb, hw⟩ := loadRolesLoop_spec k h0 (getlines content) []
    { chat with admins := [], ops := [], members := [] }
  have hact : activeRole k [] = RoleList.members := rfl
  rw [hact] at hst
  refine ⟨⟨true, st.2, some content⟩, ?_, rfl, rfl, fun r => ?_, hb, hw⟩
  · simp only [loadRoles, hst]
  · rw [hr r]
    cases r <;> rfl

theorem loadRolesLoop_ids (k : Constants) (ids : List Str) (chat : Chat)
    (hids : ∀ id ∈ ids, id ≠ [] ∧ ' ' ∉ id ∧ at0 id ≠ k.COMMENTPREFIX) :
    loadRolesLoop k ids (RoleList.admins, chat)
      = .ok (RoleList.admins, { chat with admins := chat.admins ++ ids }) := by
  induction ids generalizing chat with
  | nil => simp [loadRolesLoop]
  | cons id ids ih =>
    obtain ⟨hne, hsp, hpre⟩ := hids id (by simp)
    have hrest : ∀ x ∈ ids, x ≠ [] ∧ ' ' ∉ x ∧ at0 x ≠ k.COMMENTPREFIX :=
      fun x hx => hids x (by simp [hx])
    have hf : id.filter (fun c => c ≠ ' ') = id := eraseSpaces_of_not_mem id hsp
    unfold loadRolesLoop
    rw [loadRolesLine_data k _ _ id hpre, hf, if_pos hne]
    simp only []
    rw [ih _ hrest]
    simp [pushRole]

theorem keepLines_eq (k : Constants) (lines acc : List Str) :
    keepLines k lines acc = acc ++ lines.filter (fun l => at0 l ≠ k.COMMENTPREFIX) := by
  induction lines generalizing acc with
  | nil => simp [keepLines]
  | cons l ls ih =>
    unfold keepLines
    by_cases h : at0 l = k.COMMENTPREFIX
    · simp [h, ih]
    · simp [h, ih]

/-- C11. Role-file round trip: with `#` as comment character, for every
sequence of identifiers, each non-empty, without space or newline and not
starting with the comment character, loading the file whose lines are `#admins`
and then the identifiers, one per line, returns true and leaves `admins` equal
to that sequence, in order, and `ops` and `members` empty, whatever the lists
held before. -/
theorem loadRoles_admins_round_trip (k : Constants) (t : Templates) (chat : Chat)
    (ids : List Str) (hsharp : k.COMMENTPREFIX = '#')
    (hids : ∀ id ∈ ids, id ≠ [] ∧ ' ' ∉ id ∧ Char.ofNat 10 ∉ id ∧ at0 id ≠ k.COMMENTPREFIX) :
    ∃ res, loadRoles k t chat (some (fileOfLines ("#admins".toList :: ids))) = .ok res ∧
      res.ret = true ∧ res.chat.admins = ids ∧ res.chat.ops = [] ∧ res.chat.members = [] := by
  have h0 : k.COMMENTPREFIX ≠ Char.ofNat 0 := by
    rw [hsharp]
    decide
  have hlines : getlines (fileOfLines ("#admins".toList :: ids)) = "#admins".toList :: ids := by
    apply getlines_fileOfLines
    intro l hl
    rcases List.mem_cons.1 hl with h | h
    · rw [h]
      decide
    · exact (hids l h).2.2.1
  have hhead : at0 "#admins".toList = k.COMMENTPREFIX := by
    rw [hsharp]
    rfl
  have hrole : headerRole k "#admins".toList = some RoleList.admins := by
    unfold headerRole
    rw [if_pos hhead]
    rfl
  have hloop := loadRolesLoop_ids k ids { chat with admins := [], ops := [], members := [] }
    (fun id hid => ⟨(hids id hid).1, (hids id hid).2.1, (hids id hid).2.2.2⟩)
  have hline : loadRolesLine k
      (RoleList.members, { chat with admins := [], ops := [], members := [] }) "#admins".toList
      = .ok (RoleList.admins, { chat with admins := [], ops := [], members := [] }) := by
    rw [loadRolesLine_header k h0 _ _ _ hhead, hrole]
  have hall : loadRolesLoop k ("#admins".toList :: ids)
      (RoleList.members, { chat with admins := [], ops := [], members := [] })
      = .ok (RoleList.admins, { chat with admins := [] ++ ids, ops := [], members := [] }) := by
    rw [loadRolesLoop, hline]
    exact hloop
  have hload : loadRoles k t chat (some (fileOfLines ("#admins".toList :: ids)))
      = .ok ⟨true, { chat with admins := [] ++ ids, ops := [], members := [] },
          some (fileOfLines ("#admins".toList :: ids))⟩ := by
    unfold loadRoles
    simp only []
    rw [hlines, hall]
  exact ⟨_, hload, rfl, List.nil_append ids, rfl, rfl⟩

/-- Witness of `loadRoles_admins_round_trip`: the file `#admins`, `alice`,
`bob`, loaded over lists that are not empty. -/
theorem loadRoles_admins_round_trip_witness :
    ∃ res, loadRoles sampleConstants sampleTemplates staleChat
        (some "#admins\nalice\nbob\n".toList) = .ok res ∧
      res.ret = true ∧ res.chat.admins = ["alice".toList, "bob".toList] ∧
      res.chat.ops = [] ∧ res.chat.members = [] :=
  loadRoles_admins_round_trip sampleConstants sampleTemplates staleChat
    ["alice".toList, "bob".toList] rfl (by decide)

theorem activeRole_of_no_header (k : Constants) (preceding : List Str)
    (h : ∀ l ∈ preceding, headerRole k l = none) : activeRole k preceding = RoleList.members := by
  induction preceding using List.reverseRecOn with
  | nil => rfl
  | append_singleton pre l ih =>
    rw [activeRole_snoc, h l (by simp)]
    exact ih (fun x hx => h x (by simp [hx]))

/-- C12. Active role list selection: when the comment character is not the
zero character, `loadRoles` on an existing file returns, and each of `admins`,
`ops` and `members` holds, in file order, the data lines (spaces removed, blank
ones left out) whose most recent preceding recognized header names that list,
`members` being the list of the data lines that no recognized header precedes.
A line that is not a recognized header, an unrecognized header among them,
leaves the active list as it was, and a recognized header makes its list the
active one. -/
theorem loadRoles_active_list (k : Constants) (t : Templates) (chat : Chat) (content : Str)
    (h0 : k.COMMENTPREFIX ≠ Char.ofNat 0) :
    (∃ res, loadRoles k t chat (some content) = .ok res ∧
      res.chat.admins = expectedEntries k .admins [] (getlines content) ∧
      res.chat.ops = expectedEntries k .ops [] (getlines content) ∧
      res.chat.members = expectedEntries k .members [] (getlines content)) ∧
    (∀ preceding : List Str, (∀ l ∈ preceding, headerRole k l = none) →
      activeRole k preceding = RoleList.members) ∧
    (∀ (preceding : List Str) (l : Str), headerRole k l = none →
      activeRole k (preceding ++ [l]) = activeRole k preceding) ∧
    (∀ (preceding : List Str) (l : Str) (r : RoleList), headerRole k l = some r →
      activeRole k (preceding ++ [l]) = r) := by
  refine ⟨?_, activeRole_of_no_header k, ?_, ?_⟩
  · obtain ⟨res, hres, _, _, hr, _, _⟩ := loadRoles_lists k t chat content h0
    exact ⟨res, hres, hr .admins, hr .ops, hr .members⟩
  · intro preceding l hl
    rw [activeRole_snoc, hl]
  · intro preceding l r hl
    rw [activeRole_snoc, hl]

/-- Witness of `loadRoles_active_list`: a file with a data line before any
header, a header written with spaces, a header that names no list and a blank
data line. -/
theorem loadRoles_active_list_witness :
    sampleConstants.COMMENTPREFIX ≠ Char.ofNat 0 ∧
    expectedEntries sampleConstants .admins [] (getlines sampleRoleFile)
      = ["alice".toList, "bobsmith".toList] ∧
    expectedEntries sampleConstants .ops [] (getlines sampleRoleFile)
      = ["carl".toList, "dan".toList] ∧
    expectedEntries sampleConstants .members [] (getlines sampleRoleFile)
      = ["zed".toList, "eve".toList] ∧
    ∃ res, loadRoles sampleConstants sampleTemplates staleChat (some sampleRoleFile) = .ok res ∧
      res.chat.admins = expectedEntries sampleConstants .admins [] (getlines sampleRoleFile) ∧
      res.chat.ops = expectedEntries sampleConstants .ops [] (getlines sampleRoleFile) ∧
      res.chat.members = expectedEntries sampleConstants .members [] (getlines sampleRoleFile) :=
  ⟨by decide, rfl, rfl, rfl,
    (loadRoles_active_list sampleConstants sampleTemplates staleChat sampleRoleFile
      (by decide)).1⟩

/-- C13. The ban and whitelist loaders keep empty lines: for the file with the
lines `alice`, an empty line, `#note` and `bob smith`, `loadBanned` leaves
`["alice", "", "bob smith"]`, with the empty string as an identifier, and so
does `loadWhitelist`, where the lines that are non-empty and do not start with
the comment character are `["alice", "bob smith"]`. Lines are taken verbatim,
spaces kept, and the comment line is left out. -/
theorem loadBanned_keeps_empty_line :
    getlines sampleBanFile = ["alice".toList, [], "#note".toList, "bob smith".toList] ∧
    (loadBanned sampleConstants sampleTemplates Chat.empty (some sampleBanFile)).chat.banned
      = ["alice".toList, [], "bob smith".toList] ∧
    (loadWhitelist sampleConstants sampleTemplates Chat.empty
        (some sampleBanFile)).chat.whitelist
      = ["alice".toList, [], "bob smith".toList] ∧
    (getlines sampleBanFile).filter
        (fun l => decide (l ≠ []) && decide (at0 l ≠ sampleConstants.COMMENTPREFIX))
      = ["alice".toList, "bob smith".toList] :=
  ⟨rfl, rfl, rfl, rfl⟩

/-- C14. Load replaces, never accumulates: when the comment character is not
the zero character, for every prior state and every file state `loadRoles`,
`loadBanned` and `loadWhitelist` return true and leave their lists equal to what
the same load leaves when it starts from empty lists; when the file does not
exist the lists are empty after the call; and when it exists the file is left as
it was and loading it once more leaves the same lists. -/
theorem load_replaces (k : Constants) (t : Templates) (chat : Chat) (file : Option Str)
    (h0 : k.COMMENTPREFIX ≠ Char.ofNat 0) :
    (∃ res res0, loadRoles k t chat file = .ok res ∧ loadRoles k t Chat.empty file = .ok res0 ∧
      res.ret = true ∧ res0.ret = true ∧
      res.chat.admins = res0.chat.admins ∧ res.chat.ops = res0.chat.ops ∧
      res.chat.members = res0.chat.members ∧
      (file = none → res.chat.admins = [] ∧ res.chat.ops = [] ∧ res.chat.members = []) ∧
      (file ≠ none → res.file = file ∧ ∃ res2, loadRoles k t res.chat res.file = .ok res2 ∧
        res2.chat.admins = res.chat.admins ∧ res2.chat.ops = res.chat.ops ∧
        res2.chat.members = res.chat.members)) ∧
    ((loadBanned k t chat file).ret = true ∧
      (loadBanned k t chat file).chat.banned = (loadBanned k t Chat.empty file).chat.banned ∧
      (file = none → (loadBanned k t chat file).chat.banned = []) ∧
      (file ≠ none → (loadBanned k t chat file).file = file ∧
        (loadBanned k t (loadBanned k t chat file).chat (loadBanned k t chat file).file).chat.banned
          = (loadBanned k t chat file).chat.banned)) ∧
    ((loadWhitelist k t chat file).ret = true ∧
      (loadWhitelist k t chat file).chat.whitelist
        = (loadWhitelist k t Chat.empty file).chat.whitelist ∧
      (file = none → (loadWhitelist k t chat file).chat.whitelist = []) ∧
      (file ≠ none → (loadWhitelist k t chat file).file = file ∧
        (loadWhitelist k t (loadWhitelist k t chat file).chat
            (loadWhitelist k t chat file).file).chat.whitelist
          = (loadWhitelist k t chat file).chat.whitelist)) := by
  cases file with
  | none =>
    refine ⟨⟨_, _, rfl, rfl, rfl, rfl, rfl, rfl, rfl, fun _ => ⟨rfl, rfl, rfl⟩,
      fun h => absurd rfl h⟩, ⟨rfl, rfl, fun _ => rfl, fun h => absurd rfl h⟩,
      ⟨rfl, rfl, fun _ => rfl, fun h => absurd rfl h⟩⟩
  | some content =>
    refine ⟨?_, ⟨rfl, rfl, fun h => Option.noConfusion h, fun _ => ⟨rfl, rfl⟩⟩,
      ⟨rfl, rfl, fun h => Option.noConfusion h, fun _ => ⟨rfl, rfl⟩⟩⟩
    obtain ⟨res, hres, hret, hfile, hr, _, _⟩ := loadRoles_lists k t chat content h0
    obtain ⟨res0, hres0, hret0, _, hr0, _, _⟩ := loadRoles_lists k t Chat.empty content h0
    obtain ⟨res2, hres2, _, _, hr2, _, _⟩ := loadRoles_lists k t res.chat content h0
    have e : ∀ r, res.chat.roleList r = res0.chat.roleList r := fun r => by rw [hr r, hr0 r]
    have e2 : ∀ r, res2.chat.roleList r = res.chat.roleList r := fun r => by rw [hr r, hr2 r]
    refine ⟨res, res0, hres, hres0, hret, hret0, e .admins, e .ops, e .members,
      fun h => Option.noConfusion h, fun _ => ⟨hfile, res2, ?_, e2 .admins, e2 .ops, e2 .members⟩⟩
    rw [hfile]
    exact hres2

/-- Witness of `load_replaces`: loading the sample role file over lists that
are not empty gives the lists of a load from empty lists, and loading a missing
ban file empties the ban list. -/
theorem load_replaces_witness :
    sampleConstants.COMMENTPREFIX ≠ Char.ofNat 0 ∧
    (∃ res res0, loadRoles sampleConstants sampleTemplates staleChat (some sampleRoleFile)
        = .ok res ∧
      loadRoles sampleConstants sampleTemplates Chat.empty (some sampleRoleFile) = .ok res0 ∧
      res.chat.admins = res0.chat.admins) ∧
    (loadBanned sampleConstants sampleTemplates staleChat none).chat.banned = [] := by
  have h := load_replaces sampleConstants sampleTemplates staleChat (some sampleRoleFile)
    (by decide)
  have hn := load_replaces sampleConstants sampleTemplates staleChat none (by decide)
  obtain ⟨res, res0, h1, h2, _, _, h3, _⟩ := h.1
  exact ⟨by decide, ⟨res, res0, h1, h2, h3⟩, hn.2.1.2.2.1 rfl⟩

end Mineserver
